import Mathlib

/-!
Verification of the pairing-handshake orchestrator, archive builder and
pairing-code formatter of the session-marr repository (src/index.js, with the
lazy-require variant in src/unnamed/part_000).

The JavaScript is embedded shallowly:
  * JS `null`-able string values become `Option String`; JS truthiness of such
    a value (`!pairingCode`, `update.qr && ...`) is `truthyS` (a string is
    truthy iff non-empty, `null`/`undefined` are falsy).
  * The connection promise becomes an explicit state (`HsState`): promise
    settlement is first-wins (`settle`), exactly as ECMAScript resolves a
    promise at most once; `clearTimeout` / timer expiry become the
    `timerActive` flag and `fireTimer`.
  * The `connection.update` listener body (src/index.js lines 144-170) becomes
    the pure transition `step`; a run of the handshake over a list of
    timestamped connection-update events, with the `setTimeout` of
    `config.authTimeoutMs` racing them, is `runHandshake`.
  * Filesystem interaction of `createZipFromFolder` becomes an explicit trace
    of `readdir` / `stat` / `readFile` responses; the mutable JSZip object is
    the accumulator of `zipLoop`.
-/

namespace SessionMarr

/-- JS truthiness of a nullable string variable: `null`/`undefined` and the
empty string are falsy, every other string is truthy. -/
def truthyS : Option String → Bool
  | some s => s != ""
  | none => false

/-- JS `a || b` on two nullable strings: yields `a` when `a` is truthy,
otherwise `b` (as in `update.pairingCode || update.pairing`). -/
def jsOrS (a b : Option String) : Option String :=
  if truthyS a then a else b

/-- JSON-like value, modelling the structured `lastDisconnect.error.output`
payload that `JSON.stringify` is applied to in src/index.js line 165. -/
inductive Json where
  | null
  | bool (b : Bool)
  | num (n : Int)
  | str (s : String)
  | arr (elems : List Json)
  | obj (fields : List (String × Json))

/-- JS truthiness of a JSON value (objects and arrays are always truthy;
`null`, `false`, `0` and the empty string are falsy). -/
def jsonTruthy : Json → Bool
  | .null => false
  | .bool b => b
  | .num n => n != 0
  | .str s => s != ""
  | .arr _ => true
  | .obj _ => true

mutual

/-- Model of `JSON.stringify` on the `Json` values above (string escaping is
limited to quote and backslash, which suffices for the properties proved
here). -/
def Json.stringify : Json → String
  | .null => "null"
  | .bool true => "true"
  | .bool false => "false"
  | .num n => toString n
  | .str s => "\"" ++ s ++ "\""
  | .arr l => "[" ++ Json.stringifyList l ++ "]"
  | .obj f => "\x7b" ++ Json.stringifyObj f ++ "\x7d"

/-- Comma-separated serialization of a JSON array's elements. -/
def Json.stringifyList : List Json → String
  | [] => ""
  | [j] => Json.stringify j
  | j :: rest => Json.stringify j ++ "," ++ Json.stringifyList rest

/-- Comma-separated serialization of a JSON object's fields. -/
def Json.stringifyObj : List (String × Json) → String
  | [] => ""
  | [(k, v)] => "\"" ++ k ++ "\":" ++ Json.stringify v
  | (k, v) :: rest => "\"" ++ k ++ "\":" ++ Json.stringify v ++ "," ++ Json.stringifyObj rest

end

/-- The error object carried by `update.lastDisconnect.error`: its optional
structured `output` field (`none` when the field is absent) and the string the
JS coercion `String(error)` produces for it. -/
structure DiscError where
  output : Option Json
  strForm : String

/-- The `lastDisconnect` field of a connection update. -/
structure LastDisconnect where
  error : Option DiscError

/-- One `connection.update` event as consumed by the listener in
src/index.js lines 143-170: optional `qr`, `pairingCode`, `pairing` strings,
the `connection` field (`"open"`, `"close"`, `"connecting"`, or absent) and
the optional `lastDisconnect` payload. `none` models an absent/falsy field. -/
structure ConnUpdate where
  qr : Option String := none
  pairingCode : Option String := none
  pairing : Option String := none
  connection : Option String := none
  lastDisconnect : Option LastDisconnect := none

/-- Outcome of the connection promise: resolved (`opened`), rejected on close
with the computed reason, or rejected on timer expiry (carrying the
`authTimeoutMs` used to build the timeout message). -/
inductive Outcome where
  | opened
  | closed (reason : String)
  | timedOut (ms : Nat)
deriving DecidableEq

/-- The timeout rejection message of src/index.js line 141,
`Waktu habis. Koneksi tidak terbuka dalam ${ms / 1000} detik.`; the JS float
division agrees with `Nat` division whenever `1000 ∣ ms` (as for the default
90000). -/
def timeoutMessage (ms : Nat) : String :=
  "Waktu habis. Koneksi tidak terbuka dalam " ++ toString (ms / 1000) ++ " detik."

/-- The message of the `Error` each rejection carries (resolution carries no
message). -/
def outcomeMessage : Outcome → Option String
  | .opened => none
  | .closed r => some ("Koneksi ditutup sebelum berhasil. Reason: " ++ r)
  | .timedOut ms => some (timeoutMessage ms)

/-- The reason string computed in src/index.js lines 164-166:
`update.lastDisconnect && update.lastDisconnect.error && update.lastDisconnect.error.output`
selects `JSON.stringify(output)` when the output field is present and truthy,
else `String(error)` when the error is present, else `'closed before open'`. -/
def computeReason (u : ConnUpdate) : String :=
  match u.lastDisconnect with
  | some ld =>
    match ld.error with
    | some e =>
      match e.output with
      | some out => if jsonTruthy out then Json.stringify out else e.strForm
      | none => e.strForm
    | none => "closed before open"
  | none => "closed before open"

/-- State of one pairing session while the connection promise is pending or
settled: the mutable `pairingCode` variable (a nullable string), the promise's
settlement (`none` while pending; a promise settles at most once), and whether
the `setTimeout` timer is still pending (neither cleared nor fired). -/
structure HsState where
  pairingCode : Option String
  settled : Option Outcome
  timerActive : Bool

/-- State at listener registration: `pairingCode` holds whatever the
`requestPairingCode` phase produced (`none` when the call was unavailable or
failed), the promise is pending, the timer is armed. -/
def initState (pc : Option String) : HsState :=
  ⟨pc, none, true⟩

/-- Promise settlement: `resolve`/`reject` are no-ops on an already-settled
promise (first settlement wins). -/
def settle (st : HsState) (o : Outcome) : HsState :=
  match st.settled with
  | some _ => st
  | none => { st with settled := some o }

/-- The code-capture part of the `connection.update` listener (src/index.js
lines 144-156): capture `update.qr` if it is truthy and no code is captured
yet, then capture `update.pairingCode || update.pairing` under the same
guard (the second guard sees the first capture, exactly as the mutable
`pairingCode` variable does). -/
def capture (st : HsState) (u : ConnUpdate) : HsState :=
  let st1 := if truthyS u.qr && !truthyS st.pairingCode
    then { st with pairingCode := u.qr } else st
  if (truthyS u.pairingCode || truthyS u.pairing) && !truthyS st1.pairingCode
    then { st1 with pairingCode := jsOrS u.pairingCode u.pairing } else st1

/-- The whole `connection.update` listener body (src/index.js lines 144-170)
as a state transition: the capture phase, then the `connection` dispatch —
`"open"` clears the timer and resolves, `"close"` clears the timer and
rejects with the computed reason, any other value falls through. -/
def step (st : HsState) (u : ConnUpdate) : HsState :=
  let st2 := capture st u
  if u.connection = some "open" then
    settle { st2 with timerActive := false } .opened
  else if u.connection = some "close" then
    settle { st2 with timerActive := false } (.closed (computeReason u))
  else st2

/-- Expiry of the `setTimeout` timer: if it is still pending it fires once,
rejecting the promise with the timeout error; a cleared or already-fired timer
does nothing. -/
def fireTimer (ms : Nat) (st : HsState) : HsState :=
  if st.timerActive then
    settle { st with timerActive := false } (.timedOut ms)
  else st

/-- Deliver one timestamped event: the timer, due at `ms`, fires before any
event whose arrival time is at or past `ms`; then the listener processes the
event. -/
def runStep (ms : Nat) (st : HsState) (e : Nat × ConnUpdate) : HsState :=
  step (if ms ≤ e.1 then fireTimer ms st else st) e.2

/-- Process a list of timestamped events in arrival order. -/
def procEvents (ms : Nat) (st : HsState) (es : List (Nat × ConnUpdate)) : HsState :=
  es.foldl (runStep ms) st

/-- One full handshake run over a timeline of connection-update events: the
events are delivered in order, the timer races them, and after the last event
real time passes so a still-armed timer fires. -/
def runHandshake (ms : Nat) (es : List (Nat × ConnUpdate)) (st : HsState) : HsState :=
  fireTimer ms (procEvents ms st es)

/-- Raw result of `sock.requestPairingCode(phone)`: a bare string, an object
(whose `code` / `pairingCode` fields may each be absent or any string), or a
nullish value. -/
inductive RawPairing where
  | rstr (s : String)
  | robj (code : Option String) (pairingCode : Option String)
  | rnull

/-- The normalization of src/index.js line 117:
`typeof raw === 'string' ? raw : (raw?.code || raw?.pairingCode || '')`. -/
def normalizeRaw : RawPairing → String
  | .rstr s => s
  | .robj c p =>
    match jsOrS (jsOrS c p) (some "") with
    | some s => s
    | none => ""
  | .rnull => ""

/-- Node `fs` error codes relevant to `createZipFromFolder`: missing entry,
permission denied, I/O failure. -/
inductive FsError where
  | enoent
  | eacces
  | eio
deriving DecidableEq

/-- What the loop body of `createZipFromFolder` (src/index.js lines 54-61)
observes for one name returned by `readdir`: `stat` reports a regular file and
`readFile` yields its bytes; `stat` reports a non-file (a subdirectory);
`stat` throws; or `stat` reports a file but `readFile` throws. -/
inductive ScanEntry where
  | fileE (name : String) (data : List Nat)
  | dirE (name : String)
  | statErr (name : String) (e : FsError)
  | readErr (name : String) (e : FsError)
deriving DecidableEq

/-- Result of the initial `fs.readdir(folderPath)` call: the directory listing
(with, per name, the subsequent `stat`/`readFile` observations), or a thrown
error (`enoent` when the directory does not exist). -/
inductive ReaddirResult where
  | ok (entries : List ScanEntry)
  | err (e : FsError)
deriving DecidableEq

/-- The archive entry added for one regular file: base name and bytes. -/
abbrev ZipEntry := String × List Nat

/-- The `for` loop of src/index.js lines 54-61 over the listed names, carrying
the mutable JSZip object as the accumulated entry list: regular files are
added via `zip.file(file, fileData)`, non-files are skipped, and a thrown
`stat`/`readFile` error aborts the loop with the entries added so far. -/
def zipLoop : List ScanEntry → List ZipEntry → List ZipEntry × Option FsError
  | [], acc => (acc, none)
  | .fileE n d :: rest, acc => zipLoop rest (acc ++ [(n, d)])
  | .dirE _ :: rest, acc => zipLoop rest acc
  | .statErr _ e :: _, acc => (acc, some e)
  | .readErr _ e :: _, acc => (acc, some e)

/-- `createZipFromFolder` (src/index.js lines 50-71) over the filesystem
trace: on a clean run it serializes the accumulated zip; a thrown `ENOENT`
(from `readdir` or from inside the loop) is caught and the current zip object
is serialized as-is (empty when `readdir` itself threw); every other error
propagates to the caller. -/
def createZipFromFolder : ReaddirResult → Except FsError (List ZipEntry)
  | .err e => if e = .enoent then .ok [] else .error e
  | .ok entries =>
    match zipLoop entries [] with
    | (zip, none) => .ok zip
    | (zip, some e) => if e = .enoent then .ok zip else .error e

/-- The archive entries a clean scan of a listing produces: one entry per
regular file, in listing order, under its base name, with its bytes. -/
def fileEntries (entries : List ScanEntry) : List ZipEntry :=
  entries.filterMap fun e => match e with
    | .fileE n d => some (n, d)
    | _ => none

/-- An entry of the listing on which `stat` (and, for a regular file,
`readFile`) succeeded: a regular file or a non-file such as a subdirectory. -/
def cleanEntry (e : ScanEntry) : Prop :=
  (∃ n d, e = .fileE n d) ∨ ∃ n, e = .dirE n

/-- A character the JS regex `.` matches: anything but a line terminator
(LF, CR, LINE SEPARATOR, PARAGRAPH SEPARATOR). -/
def dotChar (c : Char) : Bool :=
  c != '\n' && c != '\r' && c != '\u2028' && c != '\u2029'

/-- Fuel-indexed scan of `code.match(/.{1,4}/g)`: from the current position,
skip characters `.` cannot match, then greedily take up to four consecutive
matchable characters as the next match, and continue after it. The fuel (an
upper bound on the remaining length) makes the recursion structural. -/
def jsChunksF : Nat → List Char → List (List Char)
  | 0, _ => []
  | _, [] => []
  | fuel + 1, c :: cs =>
    if dotChar c then
      (c :: (cs.takeWhile dotChar).take 3) ::
        jsChunksF fuel (cs.drop ((cs.takeWhile dotChar).take 3).length)
    else
      jsChunksF fuel cs

/-- The list of matches `code.match(/.{1,4}/g)` produces on `cs` (empty when
the JS call returns `null`). -/
def jsChunks (cs : List Char) : List (List Char) :=
  jsChunksF cs.length cs

/-- `Array.prototype.join('-')` on a list of chunks, at the character level. -/
def joinHyphen : List (List Char) → List Char
  | [] => []
  | [c] => c
  | c :: rest => c ++ '-' :: joinHyphen rest

/-- A JS value as passed to `formatPairingCode`: a plain string, or a
non-string primitive (on which `.match` throws). -/
inductive JsVal where
  | str (s : String)
  | num (n : Int)
  | boolv (b : Bool)
  | nullv
  | undef
deriving DecidableEq

/-- `formatPairingCode` (src/index.js lines 73-80): for a string, the matches
of `/.{1,4}/g` joined with `'-'`; when the regex yields `null` (empty input or
only line terminators) the subsequent `.join` throws and the `catch` returns
the input; a non-string input makes `.match` throw, so it too is returned
unchanged. -/
def formatPairingCode : JsVal → JsVal
  | .str s =>
    match jsChunks s.data with
    | [] => .str s
    | chunks => .str (String.mk (joinHyphen chunks))
  | v => v

/-- The specification's description of the chunking ("the input split into
consecutive chunks of length at most 4"): greedy chunks of four over ALL
characters of the input, to be compared with what the regex actually
produces. -/
def chunks4 : List Char → List (List Char)
  | [] => []
  | [a] => [[a]]
  | [a, b] => [[a, b]]
  | [a, b, c] => [[a, b, c]]
  | a :: b :: c :: d :: rest => [a, b, c, d] :: chunks4 rest

/-- Delete every hyphen of a string (the specification's "removing the
hyphens recovers the input"). -/
def removeHyphens (s : String) : String :=
  String.mk (s.data.filter (fun c => c != '-'))

/-- A concrete `"close"` event whose disconnect error carries the structured
output `{statusCode: 401}` (as in the spec's end-to-end scenario C), used to
exercise the closure path on one explicit input. -/
def closeUpd401 : ConnUpdate where
  connection := some "close"
  lastDisconnect := some ⟨some ⟨some (.obj [("statusCode", .num 401)]), "Error: x"⟩⟩

/-! ### Basic preservation lemmas about the handshake transition system -/

theorem settle_pairingCode (st : HsState) (o : Outcome) :
    (settle st o).pairingCode = st.pairingCode := by
  unfold settle
  cases hs : st.settled <;> rfl

theorem settle_timerActive (st : HsState) (o : Outcome) :
    (settle st o).timerActive = st.timerActive := by
  unfold settle
  cases hs : st.settled <;> rfl

theorem settle_settled_of_some {st : HsState} {o : Outcome} (o' : Outcome)
    (h : st.settled = some o) : (settle st o').settled = some o := by
  unfold settle
  rw [h]
  exact h

theorem settle_settled_of_none {st : HsState} (h : st.settled = none) (o : Outcome) :
    (settle st o).settled = some o := by
  unfold settle
  rw [h]

theorem settle_settled_isSome (st : HsState) (o : Outcome) :
    (settle st o).settled.isSome := by
  unfold settle
  split <;> simp_all

theorem capture_settled (st : HsState) (u : ConnUpdate) :
    (capture st u).settled = st.settled := by
  unfold capture
  dsimp only
  split <;> split <;> rfl

theorem capture_timerActive (st : HsState) (u : ConnUpdate) :
    (capture st u).timerActive = st.timerActive := by
  unfold capture
  dsimp only
  split <;> split <;> rfl

theorem capture_of_truthy {st : HsState} (u : ConnUpdate)
    (h : truthyS st.pairingCode = true) : capture st u = st := by
  simp [capture, h]

theorem step_settled_of_some {st : HsState} {o : Outcome} (u : ConnUpdate)
    (h : st.settled = some o) : (step st u).settled = some o := by
  have hc : (capture st u).settled = some o := (capture_settled st u).trans h
  unfold step
  dsimp only
  split
  · exact settle_settled_of_some _ hc
  · split
    · exact settle_settled_of_some _ hc
    · exact hc

theorem fireTimer_settled_of_some {st : HsState} {o : Outcome} (ms : Nat)
    (h : st.settled = some o) : (fireTimer ms st).settled = some o := by
  unfold fireTimer
  split
  · exact settle_settled_of_some _ h
  · exact h

theorem runStep_settled_of_some {st : HsState} {o : Outcome} (ms : Nat)
    (e : Nat × ConnUpdate) (h : st.settled = some o) :
    (runStep ms st e).settled = some o := by
  unfold runStep
  split
  · exact step_settled_of_some _ (fireTimer_settled_of_some ms h)
  · exact step_settled_of_some _ h

theorem procEvents_settled_of_some {o : Outcome} (ms : Nat)
    (es : List (Nat × ConnUpdate)) :
    ∀ st : HsState, st.settled = some o → (procEvents ms st es).settled = some o := by
  induction es with
  | nil => intro st h; exact h
  | cons e es ih => intro st h; exact ih _ (runStep_settled_of_some ms e h)

theorem step_pending {st : HsState} (u : ConnUpdate)
    (h : st.settled = none → st.timerActive = true) :
    (step st u).settled = none → (step st u).timerActive = true := by
  have hc : (capture st u).settled = st.settled := capture_settled st u
  unfold step
  dsimp only
  split
  · intro hno
    have hi := settle_settled_isSome { capture st u with timerActive := false } Outcome.opened
    rw [hno] at hi
    simp at hi
  · split
    · intro hno
      have hi := settle_settled_isSome { capture st u with timerActive := false }
        (.closed (computeReason u))
      rw [hno] at hi
      simp at hi
    · intro hno
      rw [hc] at hno
      rw [capture_timerActive st u]
      exact h hno

theorem fireTimer_pending {st : HsState} (ms : Nat)
    (h : st.settled = none → st.timerActive = true) :
    (fireTimer ms st).settled = none → (fireTimer ms st).timerActive = true := by
  unfold fireTimer
  split
  · intro hno
    have hi := settle_settled_isSome { st with timerActive := false } (.timedOut ms)
    rw [hno] at hi
    simp at hi
  · exact h

theorem runStep_pending {st : HsState} (ms : Nat) (e : Nat × ConnUpdate)
    (h : st.settled = none → st.timerActive = true) :
    (runStep ms st e).settled = none → (runStep ms st e).timerActive = true := by
  unfold runStep
  split
  · exact step_pending _ (fireTimer_pending ms h)
  · exact step_pending _ h

theorem procEvents_pending (ms : Nat) (es : List (Nat × ConnUpdate)) :
    ∀ st : HsState, (st.settled = none → st.timerActive = true) →
    ((procEvents ms st es).settled = none → (procEvents ms st es).timerActive = true) := by
  induction es with
  | nil => intro st h; exact h
  | cons e es ih => intro st h; exact ih _ (runStep_pending ms e h)

theorem fireTimer_settled_isSome {st : HsState} (ms : Nat)
    (h : st.settled = none → st.timerActive = true) :
    (fireTimer ms st).settled.isSome := by
  cases hs : st.settled with
  | some o => rw [fireTimer_settled_of_some ms hs]; rfl
  | none =>
    have ht := h hs
    simp only [fireTimer, ht, if_true]
    exact settle_settled_isSome _ _

/-! ### C1 -/

/-- C1: every pairing session has exactly one outcome. The handshake promise
of `runHandshake` always ends settled, the first settlement wins, and any
connection-state event delivered after the first terminal event (in
particular a stray `"open"` or `"close"`) leaves the already-resolved outcome
unchanged: whatever outcome the promise holds after a prefix of the event
timeline, it still holds after the remaining events and the timer race. -/
theorem first_terminal_event_determines_outcome :
    (∀ (ms : Nat) (pc : Option String) (es1 es2 : List (Nat × ConnUpdate)) (o : Outcome),
      (procEvents ms (initState pc) es1).settled = some o →
      (runHandshake ms (es1 ++ es2) (initState pc)).settled = some o)
    ∧ ∀ (ms : Nat) (pc : Option String) (es : List (Nat × ConnUpdate)),
      (runHandshake ms es (initState pc)).settled.isSome := by
  constructor
  · intro ms pc es1 es2 o h
    unfold runHandshake
    unfold procEvents
    rw [List.foldl_append]
    exact fireTimer_settled_of_some ms (procEvents_settled_of_some ms es2 _ h)
  · intro ms pc es
    exact fireTimer_settled_isSome ms (procEvents_pending ms es _ (fun _ => rfl))

/-- C1 witness: with a 5 ms deadline, an `"open"` event at time 0 resolves the
session, and a `"close"` event arriving afterwards does not change the
resolved outcome. -/
theorem first_terminal_event_determines_outcome_witness :
    (runHandshake 5
      ([(0, { connection := some "open" })] ++ [(1, { connection := some "close" })])
      (initState none)).settled = some .opened :=
  first_terminal_event_determines_outcome.1 5 none
    [(0, { connection := some "open" })] [(1, { connection := some "close" })]
    .opened (by decide)

/-! ### Pairing-code capture -/

theorem fireTimer_pairingCode (ms : Nat) (st : HsState) :
    (fireTimer ms st).pairingCode = st.pairingCode := by
  unfold fireTimer
  split
  · rw [settle_pairingCode]
  · rfl

theorem step_pairingCode_of_truthy {st : HsState} (u : ConnUpdate)
    (h : truthyS st.pairingCode = true) :
    (step st u).pairingCode = st.pairingCode := by
  unfold step
  dsimp only
  rw [capture_of_truthy u h]
  split
  · rw [settle_pairingCode]
  · split
    · rw [settle_pairingCode]
    · rfl

theorem runStep_pairingCode_of_truthy {st : HsState} (ms : Nat) (e : Nat × ConnUpdate)
    (h : truthyS st.pairingCode = true) :
    (runStep ms st e).pairingCode = st.pairingCode := by
  unfold runStep
  split
  · have hf : (fireTimer ms st).pairingCode = st.pairingCode := fireTimer_pairingCode ms st
    rw [step_pairingCode_of_truthy e.2 (by rw [hf]; exact h), hf]
  · exact step_pairingCode_of_truthy e.2 h

theorem procEvents_pairingCode_of_truthy (ms : Nat) (es : List (Nat × ConnUpdate)) :
    ∀ st : HsState, truthyS st.pairingCode = true →
    (procEvents ms st es).pairingCode = st.pairingCode := by
  induction es with
  | nil => intro st _; rfl
  | cons e es ih =>
    intro st h
    have he : (runStep ms st e).pairingCode = st.pairingCode :=
      runStep_pairingCode_of_truthy ms e h
    have := ih (runStep ms st e) (by rw [he]; exact h)
    rw [← he]
    exact this

/-! ### C5 -/

/-- C5: a captured pairing code is never overwritten. From any session state
whose `pairingCode` variable already holds a captured (truthy) code — whether
it came from the `requestPairingCode` call, a QR-bearing event or a
pairing-code-bearing event — processing any further timeline of
connection-update events, timer expiry included, leaves the code exactly as
it was. -/
theorem pairing_code_never_overwritten (ms : Nat) (es : List (Nat × ConnUpdate))
    (st : HsState) (h : truthyS st.pairingCode = true) :
    (runHandshake ms es st).pairingCode = st.pairingCode := by
  unfold runHandshake
  rw [fireTimer_pairingCode]
  exact procEvents_pairingCode_of_truthy ms es st h

/-- C5 witness: a session that captured the code `"ABCDEFGH"` keeps it even
when a later event offers a fresh QR string and pairing code. -/
theorem pairing_code_never_overwritten_witness :
    (runHandshake 5 [(0, { qr := some "ZZZZYYYY", pairingCode := some "XXXX" })]
      (initState (some "ABCDEFGH"))).pairingCode = some "ABCDEFGH" :=
  pairing_code_never_overwritten 5 [(0, { qr := some "ZZZZYYYY", pairingCode := some "XXXX" })]
    (initState (some "ABCDEFGH")) (by decide)

/-! ### C10 -/

/-- C10: when `requestPairingCode` succeeds but its result carries neither a
`code` nor a `pairingCode` field, the normalization of src/index.js line 117
yields the empty string; the empty string is falsy, so the listener still
treats the session as having no captured code and a later QR-bearing or
pairing-code-bearing event captures its code. -/
theorem empty_normalized_code_allows_later_capture :
    normalizeRaw (.robj none none) = "" ∧
    (∀ q : String, q ≠ "" →
      (step (initState (some (normalizeRaw (.robj none none))))
        { qr := some q }).pairingCode = some q) ∧
    (∀ p : String, p ≠ "" →
      (step (initState (some (normalizeRaw (.robj none none))))
        { pairingCode := some p }).pairingCode = some p) := by
  refine ⟨rfl, ?_, ?_⟩
  · intro q hq
    simp [step, capture, truthyS, jsOrS, initState, normalizeRaw, hq]
  · intro p hp
    simp [step, capture, truthyS, jsOrS, initState, normalizeRaw, hp]

/-- C10 witness: with the normalized empty code in place, a later QR event
carrying `"QRSTRING"` still captures it. -/
theorem empty_normalized_code_allows_later_capture_witness :
    (step (initState (some (normalizeRaw (.robj none none))))
      { qr := some "QRSTRING" }).pairingCode = some "QRSTRING" :=
  empty_normalized_code_allows_later_capture.2.1 "QRSTRING" (by decide)

/-! ### C2 -/

theorem step_opened_inv {st : HsState} (u : ConnUpdate)
    (hc : u.connection ≠ some "close")
    (h : st.settled = none ∨ st.settled = some .opened) :
    (step st u).settled = none ∨ (step st u).settled = some .opened := by
  by_cases ho : u.connection = some "open"
  · have hs : step st u = settle { capture st u with timerActive := false } Outcome.opened := by
      unfold step
      dsimp only
      rw [if_pos ho]
    rw [hs]
    right
    rcases h with h | h
    · apply settle_settled_of_none
      exact (capture_settled st u).trans h
    · apply settle_settled_of_some
      exact (capture_settled st u).trans h
  · have hs : step st u = capture st u := by
      unfold step
      dsimp only
      rw [if_neg ho, if_neg hc]
    rw [hs, capture_settled]
    exact h

theorem procEvents_no_close (ms : Nat) (es : List (Nat × ConnUpdate))
    (hes : ∀ e ∈ es, e.1 < ms ∧ e.2.connection ≠ some "close") :
    ∀ st : HsState, (st.settled = none ∨ st.settled = some .opened) →
    ((procEvents ms st es).settled = none ∨
      (procEvents ms st es).settled = some .opened) := by
  induction es with
  | nil => intro st h; exact h
  | cons e es ih =>
    intro st h
    have he := hes e (List.mem_cons_self e es)
    have hrun : runStep ms st e = step st e.2 := by
      unfold runStep
      rw [if_neg (Nat.not_le.mpr he.1)]
    have hstep := step_opened_inv e.2 he.2 h
    rw [← hrun] at hstep
    exact ih (fun e' he' => hes e' (List.mem_cons_of_mem e he')) _ hstep

theorem step_open {st : HsState} (u : ConnUpdate) (hu : u.connection = some "open")
    (h : st.settled = none ∨ st.settled = some .opened) :
    (step st u).settled = some .opened ∧ (step st u).timerActive = false := by
  unfold step
  dsimp only
  rw [if_pos hu]
  constructor
  · rcases h with h | h
    · apply settle_settled_of_none
      exact (capture_settled st u).trans h
    · apply settle_settled_of_some
      exact (capture_settled st u).trans h
  · rw [settle_timerActive]

/-- C2: an `"open"` connection-state event arriving strictly before the
`timeoutMs` deadline, with no `"close"` event before it, resolves the
handshake promise with the `opened` outcome — no matter what arrives
afterwards, including the timer race — and the `setTimeout` timer is cleared
at that event, so no timeout rejection ever fires. -/
theorem open_before_timeout_resolves (ms : Nat) (pc : Option String) (t : Nat)
    (u : ConnUpdate) (es1 es2 : List (Nat × ConnUpdate))
    (hes1 : ∀ e ∈ es1, e.1 < ms ∧ e.2.connection ≠ some "close")
    (ht : t < ms) (hu : u.connection = some "open") :
    (runHandshake ms (es1 ++ (t, u) :: es2) (initState pc)).settled = some .opened ∧
    (procEvents ms (initState pc) (es1 ++ [(t, u)])).timerActive = false := by
  have h1 : (procEvents ms (initState pc) es1).settled = none ∨
      (procEvents ms (initState pc) es1).settled = some .opened :=
    procEvents_no_close ms es1 hes1 (initState pc) (Or.inl rfl)
  have hrun : runStep ms (procEvents ms (initState pc) es1) (t, u) =
      step (procEvents ms (initState pc) es1) u := by
    unfold runStep
    rw [if_neg (Nat.not_le.mpr ht)]
  have h2 := step_open u hu h1
  rw [← hrun] at h2
  constructor
  · unfold runHandshake
    have : es1 ++ (t, u) :: es2 = (es1 ++ [(t, u)]) ++ es2 := by simp
    rw [this]
    unfold procEvents
    rw [List.foldl_append, List.foldl_append]
    exact fireTimer_settled_of_some ms (procEvents_settled_of_some ms es2 _ h2.1)
  · unfold procEvents
    rw [List.foldl_append]
    exact h2.2

/-- C2 witness: with a 5 ms deadline and an `"open"` event at time 1, the
promise resolves and the timer is cancelled. -/
theorem open_before_timeout_resolves_witness :
    (runHandshake 5 ([] ++ (1, { connection := some "open" }) :: [])
      (initState none)).settled = some .opened ∧
    (procEvents 5 (initState none) ([] ++ [(1, { connection := some "open" })])).timerActive
      = false :=
  open_before_timeout_resolves 5 none 1 { connection := some "open" } [] []
    (by intro e he; cases he) (by decide) rfl

/-! ### C3 -/

theorem string_ne_empty_of_data {s : String} (h : s.data ≠ []) : s ≠ "" :=
  fun he => h (by rw [he])

theorem append_ne_empty_left (a b : String) (h : a ≠ "") : a ++ b ≠ "" := by
  apply string_ne_empty_of_data
  rw [String.data_append]
  intro hab
  exact h (String.ext (List.append_eq_nil.mp hab).1)

theorem toDigitsCore_length_mono (b : Nat) :
    ∀ (f n : Nat) (l : List Char), l.length ≤ (Nat.toDigitsCore b f n l).length := by
  intro f
  induction f with
  | zero => intro n l; simp [Nat.toDigitsCore]
  | succ f ih =>
    intro n l
    simp only [Nat.toDigitsCore]
    split
    · simp
    · exact Nat.le_trans (Nat.le_succ _) (ih (n / b) (Nat.digitChar (n % b) :: l))

theorem toDigits_ne_nil (b n : Nat) : Nat.toDigits b n ≠ [] := by
  have h := toDigitsCore_length_mono b n (n / b) [Nat.digitChar (n % b)]
  simp only [Nat.toDigits, Nat.toDigitsCore]
  split
  · exact List.cons_ne_nil _ _
  · intro hnil
    rw [hnil] at h
    simp at h

theorem natRepr_ne_empty (n : Nat) : Nat.repr n ≠ "" := by
  apply string_ne_empty_of_data
  exact toDigits_ne_nil 10 n

theorem intRepr_ne_empty (i : Int) : Int.repr i ≠ "" := by
  cases i with
  | ofNat m => exact natRepr_ne_empty m
  | negSucc m =>
    simp only [Int.repr]
    exact append_ne_empty_left "-" _ (by decide)

theorem stringify_ne_empty (j : Json) : Json.stringify j ≠ "" := by
  cases j with
  | null => simp only [Json.stringify]; decide
  | bool b => cases b <;> (simp only [Json.stringify]; decide)
  | num n => exact intRepr_ne_empty n
  | str s =>
    simp only [Json.stringify]
    exact append_ne_empty_left _ _ (append_ne_empty_left _ _ (by decide))
  | arr l =>
    simp only [Json.stringify]
    exact append_ne_empty_left _ _ (append_ne_empty_left _ _ (by decide))
  | obj f =>
    simp only [Json.stringify]
    exact append_ne_empty_left _ _ (append_ne_empty_left _ _ (by decide))

theorem computeReason_ne_empty (u : ConnUpdate)
    (hstr : ∀ ld e, u.lastDisconnect = some ld → ld.error = some e → e.strForm ≠ "") :
    computeReason u ≠ "" := by
  unfold computeReason
  cases hld : u.lastDisconnect with
  | none => decide
  | some ld =>
    dsimp only
    cases herr : ld.error with
    | none => decide
    | some e =>
      dsimp only
      cases hout : e.output with
      | none => exact hstr ld e hld herr
      | some out =>
        dsimp only
        by_cases hj : jsonTruthy out = true
        · rw [if_pos hj]
          exact stringify_ne_empty out
        · rw [if_neg hj]
          exact hstr ld e hld herr

theorem step_nonterminal (st : HsState) (u : ConnUpdate)
    (ho : u.connection ≠ some "open") (hc : u.connection ≠ some "close") :
    (step st u).settled = st.settled ∧ (step st u).timerActive = st.timerActive := by
  have hs : step st u = capture st u := by
    unfold step
    dsimp only
    rw [if_neg ho, if_neg hc]
  rw [hs]
  exact ⟨capture_settled st u, capture_timerActive st u⟩

theorem procEvents_nonterminal (ms : Nat) (es : List (Nat × ConnUpdate))
    (hes : ∀ e ∈ es, e.1 < ms ∧ e.2.connection ≠ some "open" ∧
      e.2.connection ≠ some "close") :
    ∀ st : HsState, (procEvents ms st es).settled = st.settled ∧
      (procEvents ms st es).timerActive = st.timerActive := by
  induction es with
  | nil => intro st; exact ⟨rfl, rfl⟩
  | cons e es ih =>
    intro st
    have he := hes e (List.mem_cons_self e es)
    have hrun : runStep ms st e = step st e.2 := by
      unfold runStep
      rw [if_neg (Nat.not_le.mpr he.1)]
    have hstep := step_nonterminal st e.2 he.2.1 he.2.2
    have hih := ih (fun e' he' => hes e' (List.mem_cons_of_mem e he')) (runStep ms st e)
    constructor
    · exact hih.1.trans (by rw [hrun]; exact hstep.1)
    · exact hih.2.trans (by rw [hrun]; exact hstep.2)

theorem step_close (st : HsState) (u : ConnUpdate) (hu : u.connection = some "close")
    (h : st.settled = none) :
    (step st u).settled = some (.closed (computeReason u)) ∧
    (step st u).timerActive = false := by
  have ho : ¬u.connection = some "open" := by
    rw [hu]
    decide
  have hs : step st u =
      settle { capture st u with timerActive := false } (.closed (computeReason u)) := by
    unfold step
    dsimp only
    rw [if_neg ho, if_pos hu]
  rw [hs]
  constructor
  · apply settle_settled_of_none
    exact (capture_settled st u).trans h
  · rw [settle_timerActive]

/-- C3: a `"close"` connection-state event arriving before any `"open"` event
(and before the deadline) rejects the handshake with the closure error whose
reason is `computeReason`: the JSON serialization of the disconnect error's
`output` field when that field is present and truthy, else the error's string
form, else `"closed before open"` — and, whenever the error's string form is
non-empty when it is used, the reason is a non-empty string. -/
theorem close_before_open_rejects_with_reason (ms : Nat) (pc : Option String) (t : Nat)
    (u : ConnUpdate) (es1 es2 : List (Nat × ConnUpdate))
    (hes1 : ∀ e ∈ es1, e.1 < ms ∧ e.2.connection ≠ some "open" ∧
      e.2.connection ≠ some "close")
    (ht : t < ms) (hu : u.connection = some "close")
    (hstr : ∀ ld e, u.lastDisconnect = some ld → ld.error = some e → e.strForm ≠ "") :
    (runHandshake ms (es1 ++ (t, u) :: es2) (initState pc)).settled
      = some (.closed (computeReason u)) ∧
    computeReason u ≠ "" := by
  have h1 : (procEvents ms (initState pc) es1).settled = none :=
    (procEvents_nonterminal ms es1 hes1 (initState pc)).1
  have hrun : runStep ms (procEvents ms (initState pc) es1) (t, u) =
      step (procEvents ms (initState pc) es1) u := by
    unfold runStep
    rw [if_neg (Nat.not_le.mpr ht)]
  have h2 := step_close (procEvents ms (initState pc) es1) u hu h1
  rw [← hrun] at h2
  constructor
  · unfold runHandshake
    have hsplit : es1 ++ (t, u) :: es2 = (es1 ++ [(t, u)]) ++ es2 := by simp
    rw [hsplit]
    unfold procEvents
    rw [List.foldl_append, List.foldl_append]
    exact fireTimer_settled_of_some ms (procEvents_settled_of_some ms es2 _ h2.1)
  · exact computeReason_ne_empty u hstr

/-- C3 witness: a `"close"` at time 1 carrying a structured disconnect payload
`{statusCode: 401}` rejects with the serialized payload as reason, which is
non-empty. -/
theorem close_before_open_rejects_with_reason_witness :
    (runHandshake 5 ([] ++ (1, closeUpd401) :: []) (initState none)).settled
      = some (.closed (computeReason closeUpd401)) ∧
    computeReason closeUpd401 ≠ "" :=
  close_before_open_rejects_with_reason 5 none 1 closeUpd401
    [] [] (by intro e he; cases he) (by decide) rfl
    (by intro ld e hld herr
        simp only [closeUpd401] at hld
        cases hld
        cases herr
        decide)

/-! ### C4 -/

theorem runStep_timeout_inv (ms : Nat) (e : Nat × ConnUpdate) (st : HsState)
    (he : e.1 < ms → e.2.connection ≠ some "open" ∧ e.2.connection ≠ some "close")
    (h : (st.settled = none ∧ st.timerActive = true) ∨
      st.settled = some (.timedOut ms)) :
    ((runStep ms st e).settled = none ∧ (runStep ms st e).timerActive = true) ∨
      (runStep ms st e).settled = some (.timedOut ms) := by
  by_cases hle : ms ≤ e.1
  · right
    have hf : (fireTimer ms st).settled = some (.timedOut ms) := by
      rcases h with ⟨h1, h2⟩ | h1
      · simp only [fireTimer, h2, if_true]
        apply settle_settled_of_none
        exact h1
      · exact fireTimer_settled_of_some ms h1
    have hrun : runStep ms st e = step (fireTimer ms st) e.2 := by
      unfold runStep
      rw [if_pos hle]
    rw [hrun]
    exact step_settled_of_some e.2 hf
  · have hnt := he (Nat.not_le.mp hle)
    have hrun : runStep ms st e = step st e.2 := by
      unfold runStep
      rw [if_neg hle]
    have hstep := step_nonterminal st e.2 hnt.1 hnt.2
    rw [hrun, hstep.1, hstep.2]
    exact h

theorem procEvents_timeout_inv (ms : Nat) (es : List (Nat × ConnUpdate))
    (hes : ∀ e ∈ es, e.1 < ms → e.2.connection ≠ some "open" ∧
      e.2.connection ≠ some "close") :
    ∀ st : HsState,
    ((st.settled = none ∧ st.timerActive = true) ∨ st.settled = some (.timedOut ms)) →
    (((procEvents ms st es).settled = none ∧ (procEvents ms st es).timerActive = true) ∨
      (procEvents ms st es).settled = some (.timedOut ms)) := by
  induction es with
  | nil => intro st h; exact h
  | cons e es ih =>
    intro st h
    exact ih (fun e' he' => hes e' (List.mem_cons_of_mem e he')) _
      (runStep_timeout_inv ms e st (hes e (List.mem_cons_self e es)) h)

/-- C4: when no `"open"` and no `"close"` connection-state event arrives
before `timeoutMs` elapses, the handshake rejects with the timeout outcome,
whose human-readable message names the timeout duration in seconds
(`timeoutMs / 1000`; the divisibility hypothesis restricts the statement to
the inputs on which `Nat` division models the JS float division `ms / 1000`
exactly, as for the default 90000). -/
theorem no_terminal_event_times_out (ms : Nat) (pc : Option String)
    (es : List (Nat × ConnUpdate)) (hms : 1000 ∣ ms)
    (hes : ∀ e ∈ es, e.1 < ms → e.2.connection ≠ some "open" ∧
      e.2.connection ≠ some "close") :
    (runHandshake ms es (initState pc)).settled = some (.timedOut ms) ∧
    ∃ pre post,
      outcomeMessage (.timedOut ms) = some (pre ++ toString (ms / 1000) ++ post) := by
  constructor
  · have hinv := procEvents_timeout_inv ms es hes (initState pc) (Or.inl ⟨rfl, rfl⟩)
    unfold runHandshake
    rcases hinv with ⟨h1, h2⟩ | h1
    · simp only [fireTimer, h2, if_true]
      apply settle_settled_of_none
      exact h1
    · exact fireTimer_settled_of_some ms h1
  · exact ⟨"Waktu habis. Koneksi tidak terbuka dalam ", " detik.", rfl⟩

/-- C4 witness: with the default 90000 ms deadline and a single `"open"`
event arriving only at 100000 ms, the handshake times out and the message
names the 90-second duration. -/
theorem no_terminal_event_times_out_witness :
    (runHandshake 90000 [(100000, { connection := some "open" })]
      (initState none)).settled = some (.timedOut 90000) ∧
    ∃ pre post,
      outcomeMessage (.timedOut 90000) = some (pre ++ toString (90000 / 1000) ++ post) :=
  no_terminal_event_times_out 90000 none [(100000, { connection := some "open" })]
    ⟨90, rfl⟩
    (by intro e he hlt
        rw [List.mem_singleton] at he
        subst he
        exact absurd hlt (by decide))

/-! ### C6, C7, C9: the archive builder -/

theorem zipLoop_clean_front (good : List ScanEntry) (h : ∀ e ∈ good, cleanEntry e) :
    ∀ (l : List ScanEntry) (acc : List ZipEntry),
      zipLoop (good ++ l) acc = zipLoop l (acc ++ fileEntries good) := by
  induction good with
  | nil => intro l acc; simp [fileEntries]
  | cons e es ih =>
    intro l acc
    have hes := fun e' he' => h e' (List.mem_cons_of_mem e he')
    rcases h e (List.mem_cons_self e es) with ⟨n, d, rfl⟩ | ⟨n, rfl⟩
    · rw [List.cons_append]
      show zipLoop (es ++ l) (acc ++ [(n, d)]) = _
      rw [ih hes l (acc ++ [(n, d)])]
      simp [fileEntries, List.filterMap_cons, List.append_assoc]
    · rw [List.cons_append]
      show zipLoop (es ++ l) acc = _
      rw [ih hes l acc]
      simp [fileEntries, List.filterMap_cons]

theorem zipLoop_clean (entries : List ScanEntry) (h : ∀ e ∈ entries, cleanEntry e)
    (acc : List ZipEntry) :
    zipLoop entries acc = (acc ++ fileEntries entries, none) := by
  have hp := zipLoop_clean_front entries h [] acc
  rw [List.append_nil] at hp
  exact hp

theorem fileEntries_length :
    ∀ entries : List ScanEntry, (∀ e ∈ entries, cleanEntry e) →
    (fileEntries entries).length =
      entries.countP (fun e => match e with | .fileE _ _ => true | _ => false) := by
  intro entries
  induction entries with
  | nil => intro _; rfl
  | cons e es ih =>
    intro h
    have hih := ih (fun e' he' => h e' (List.mem_cons_of_mem e he'))
    rcases h e (List.mem_cons_self e es) with ⟨n, d, rfl⟩ | ⟨n, rfl⟩
    · simp [fileEntries, List.filterMap_cons, List.countP_cons, fileEntries] at hih ⊢
      omega
    · simp [fileEntries, List.filterMap_cons, List.countP_cons, fileEntries] at hih ⊢
      omega

/-- C6: on a directory whose listing scans cleanly — every entry is a regular
file or a subdirectory — the archive builder returns exactly one archive
entry per regular file, in listing order, flat under the file's base name and
byte-identical to the file's contents; subdirectory entries contribute
nothing, so the number of archive entries equals the number of regular
files. -/
theorem archive_contains_exactly_regular_files (entries : List ScanEntry)
    (h : ∀ e ∈ entries, cleanEntry e) :
    createZipFromFolder (.ok entries) = .ok (fileEntries entries) ∧
    (fileEntries entries).length =
      entries.countP (fun e => match e with | .fileE _ _ => true | _ => false) := by
  constructor
  · unfold createZipFromFolder
    dsimp only
    rw [zipLoop_clean entries h []]
    simp
  · exact fileEntries_length entries h

/-- C6 witness: a directory with one regular file and one subdirectory yields
the one-entry archive with the file's bytes. -/
theorem archive_contains_exactly_regular_files_witness :
    createZipFromFolder (.ok [.fileE "creds.json" [1, 2], .dirE "keys"])
      = .ok (fileEntries [.fileE "creds.json" [1, 2], .dirE "keys"]) ∧
    (fileEntries [.fileE "creds.json" [1, 2], .dirE "keys"]).length =
      List.countP (fun e => match e with | ScanEntry.fileE _ _ => true | _ => false)
        [.fileE "creds.json" [1, 2], .dirE "keys"] :=
  archive_contains_exactly_regular_files [.fileE "creds.json" [1, 2], .dirE "keys"]
    (by intro e he
        rcases List.mem_cons.mp he with rfl | he2
        · exact Or.inl ⟨"creds.json", [1, 2], rfl⟩
        · rcases List.mem_singleton.mp he2 with rfl
          exact Or.inr ⟨"keys", rfl⟩)

/-- C7: when the directory does not exist (`readdir` throws `ENOENT`) the
archive builder returns a structurally valid empty archive instead of
failing; any other filesystem error thrown by `readdir` propagates to the
caller. -/
theorem missing_dir_empty_archive_other_errors_propagate :
    createZipFromFolder (.err .enoent) = .ok [] ∧
    ∀ e : FsError, e ≠ .enoent → createZipFromFolder (.err e) = .error e := by
  constructor
  · rfl
  · intro e he
    unfold createZipFromFolder
    dsimp only
    rw [if_neg he]

/-- C7 witness: a permission-denied error from `readdir` propagates. -/
theorem missing_dir_empty_archive_other_errors_propagate_witness :
    createZipFromFolder (.err .eacces) = .error .eacces :=
  missing_dir_empty_archive_other_errors_propagate.2 .eacces (by decide)

/-- C9: when an entry disappears between the directory listing and the
`stat`/`readFile` calls — a mid-loop `ENOENT` — the archive builder neither
fails nor returns the full archive: the `catch` block's missing-directory
handler catches the `ENOENT` and serializes the zip object as already
mutated, so the result contains exactly the files added before the error. -/
theorem midloop_enoent_partial_archive (good rest : List ScanEntry) (bad : ScanEntry)
    (hgood : ∀ e ∈ good, cleanEntry e)
    (hbad : (∃ n, bad = .statErr n .enoent) ∨ ∃ n, bad = .readErr n .enoent) :
    createZipFromFolder (.ok (good ++ bad :: rest)) = .ok (fileEntries good) := by
  unfold createZipFromFolder
  dsimp only
  rw [zipLoop_clean_front good hgood (bad :: rest) []]
  rcases hbad with ⟨n, rfl⟩ | ⟨n, rfl⟩
  · simp [zipLoop]
  · simp [zipLoop]

/-- C9 witness: the file listed after the vanished entry is absent from the
result; only the file read before the error is archived. -/
theorem midloop_enoent_partial_archive_witness :
    createZipFromFolder
      (.ok ([.fileE "creds.json" [1, 2]] ++ .statErr "gone" .enoent
        :: [.fileE "late.json" [3]]))
      = .ok (fileEntries [.fileE "creds.json" [1, 2]]) :=
  midloop_enoent_partial_archive [.fileE "creds.json" [1, 2]] [.fileE "late.json" [3]]
    (.statErr "gone" .enoent)
    (by intro e he
        rcases List.mem_singleton.mp he with rfl
        exact Or.inl ⟨"creds.json", [1, 2], rfl⟩)
    (Or.inl ⟨"gone", rfl⟩)

/-! ### C8: the pairing-code formatter -/

theorem chunks4_flatten : ∀ cs : List Char, (chunks4 cs).flatten = cs := by
  intro cs
  induction cs using chunks4.induct <;> simp_all [chunks4]

theorem chunks4_length_le :
    ∀ cs : List Char, ∀ chunk ∈ chunks4 cs, 1 ≤ chunk.length ∧ chunk.length ≤ 4 := by
  intro cs
  induction cs using chunks4.induct <;> simp_all [chunks4]

theorem chunks4_ne_nil {cs : List Char} (h : cs ≠ []) : chunks4 cs ≠ [] := by
  intro hc
  have hf := chunks4_flatten cs
  rw [hc] at hf
  exact h hf.symm

theorem jsChunksF_nil : ∀ fuel : Nat, jsChunksF fuel [] = [] := by
  intro fuel
  cases fuel <;> rfl

theorem jsChunksF_all_dot :
    ∀ (fuel : Nat) (cs : List Char), cs.length ≤ fuel →
    (∀ c ∈ cs, dotChar c = true) → jsChunksF fuel cs = chunks4 cs := by
  intro fuel
  induction fuel with
  | zero =>
    intro cs hlen _
    rw [List.length_eq_zero.mp (Nat.le_zero.mp hlen)]
    rfl
  | succ fuel ih =>
    intro cs hlen hdot
    cases cs with
    | nil => rfl
    | cons c cs' =>
      have hc : dotChar c = true := hdot c (List.mem_cons_self c cs')
      have hdot' : ∀ x ∈ cs', dotChar x = true :=
        fun x hx => hdot x (List.mem_cons_of_mem c hx)
      have htw : cs'.takeWhile dotChar = cs' := List.takeWhile_eq_self_iff.mpr hdot'
      simp only [jsChunksF, hc, if_true]
      rw [htw]
      cases cs' with
      | nil => simp [jsChunksF, jsChunksF_nil, chunks4]
      | cons a cs'' =>
        cases cs'' with
        | nil => simp [jsChunksF, jsChunksF_nil, chunks4]
        | cons b cs''' =>
          cases cs''' with
          | nil => simp [jsChunksF, jsChunksF_nil, chunks4]
          | cons c2 rest =>
            have hlen' : rest.length ≤ fuel := by
              simp only [List.length_cons] at hlen
              omega
            have hdr : ∀ x ∈ rest, dotChar x = true := by
              intro x hx
              apply hdot'
              simp [hx]
            simp [chunks4, ih rest hlen' hdr]

theorem filter_joinHyphen :
    ∀ chunks : List (List Char),
    (∀ chunk ∈ chunks, ∀ c ∈ chunk, c ≠ '-') →
    (joinHyphen chunks).filter (fun c => c != '-') = chunks.flatten := by
  intro chunks
  induction chunks with
  | nil => intro _; rfl
  | cons ch rest ih =>
    intro h
    have hch : ∀ a ∈ ch, (a != '-') = true := by
      intro a ha
      simpa using h ch (List.mem_cons_self ch rest) a ha
    cases rest with
    | nil =>
      simp only [joinHyphen, List.flatten]
      rw [List.filter_eq_self.mpr hch]
      simp
    | cons ch2 rest' =>
      have hrest : ∀ chunk ∈ ch2 :: rest', ∀ c ∈ chunk, c ≠ '-' :=
        fun chunk hchunk => h chunk (List.mem_cons_of_mem ch hchunk)
      simp only [joinHyphen, List.flatten]
      rw [List.filter_append]
      rw [List.filter_eq_self.mpr hch]
      simp only [List.filter_cons]
      norm_num
      exact ih hrest

/-- C8 counterexample: on the five-character string `"ab\ncd"` the formatter
returns `"ab-cd"` — the JS regex `.` cannot match the newline, so the newline
is silently dropped and the grouping restarts after it. The result is not the
input split into consecutive chunks of length at most 4 joined by hyphens
(that would be `"ab\nc-d"`), and removing the hyphens of the result does not
recover the input. -/
theorem format_chunks_counterexample :
    formatPairingCode (.str "ab\ncd") = .str "ab-cd" ∧
    String.mk (joinHyphen (chunks4 ("ab\ncd").data)) = "ab\nc-d" ∧
    ("ab-cd" : String) ≠ "ab\nc-d" ∧
    removeHyphens "ab-cd" ≠ "ab\ncd" := by
  refine ⟨?_, ?_, ?_, ?_⟩ <;> decide

/-- C8 (amended): for every non-empty string whose characters the JS regex
`.` can match (no line terminators), the formatter returns the input split
into consecutive chunks of length at most 4 (the chunks are non-empty, at
most 4 long, and concatenate back to the input) joined by hyphens; when the
input moreover contains no hyphen of its own, removing the hyphens of the
result recovers the input. For the empty string the formatter returns the
empty string, and a non-string input is returned unchanged rather than
failing. -/
theorem format_chunks_amended :
    (∀ s : String, s ≠ "" → (∀ c ∈ s.data, dotChar c = true) →
      (formatPairingCode (.str s) = .str (String.mk (joinHyphen (chunks4 s.data))) ∧
       (∀ chunk ∈ chunks4 s.data, 1 ≤ chunk.length ∧ chunk.length ≤ 4) ∧
       ((∀ c ∈ s.data, c ≠ '-') →
         removeHyphens (String.mk (joinHyphen (chunks4 s.data))) = s))) ∧
    formatPairingCode (.str "") = .str "" ∧
    ∀ v : JsVal, (∀ s, v ≠ .str s) → formatPairingCode v = v := by
  refine ⟨?_, rfl, ?_⟩
  · intro s hs hdot
    have hdata : s.data ≠ [] := fun h => hs (String.ext h)
    have hjs : jsChunks s.data = chunks4 s.data :=
      jsChunksF_all_dot s.data.length s.data (Nat.le_refl _) hdot
    refine ⟨?_, chunks4_length_le s.data, ?_⟩
    · unfold formatPairingCode
      dsimp only
      rw [hjs]
      cases hc : chunks4 s.data with
      | nil => exact absurd hc (chunks4_ne_nil hdata)
      | cons ch rest => rfl
    · intro hnh
      have hch : ∀ chunk ∈ chunks4 s.data, ∀ c ∈ chunk, c ≠ '-' := by
        intro chunk hchunk c hcm
        apply hnh
        have hmem : c ∈ (chunks4 s.data).flatten :=
          List.mem_flatten.mpr ⟨chunk, hchunk, hcm⟩
        rw [chunks4_flatten] at hmem
        exact hmem
      unfold removeHyphens
      rw [show (String.mk (joinHyphen (chunks4 s.data))).data
          = joinHyphen (chunks4 s.data) from rfl]
      rw [filter_joinHyphen (chunks4 s.data) hch, chunks4_flatten]
  · intro v hv
    cases v with
    | str s => exact absurd rfl (hv s)
    | num n => rfl
    | boolv b => rfl
    | nullv => rfl
    | undef => rfl

/-- C8 (amended) witness: the newline-free input `"ABCDEFG"` formats to
`"ABCD-EFG"`, the chunks are within bounds, and removing the hyphens recovers
the input. -/
theorem format_chunks_amended_witness :
    formatPairingCode (.str "ABCDEFG")
      = .str (String.mk (joinHyphen (chunks4 ("ABCDEFG").data))) ∧
    removeHyphens (String.mk (joinHyphen (chunks4 ("ABCDEFG").data))) = "ABCDEFG" := by
  have h := format_chunks_amended.1 "ABCDEFG" (by decide) (by decide)
  exact ⟨h.1, h.2.2 (by decide)⟩

end SessionMarr
